import Mathlib

/-
Verification of the inpdf navigation core: page-range parsing and expansion
(src/page_range.rs), page-label resolution (src/pdf/page_labels.rs), and
table-of-contents / destination resolution (src/pdf/toc.rs), shallowly
embedded in Lean 4.  Rust strings are modelled as `String` / `List Char`,
`u32` as `Nat` with explicit bounds where the source checks them,
`Result` as `Except String`, and the lopdf object store as an explicit
association-list document.
-/

deriving instance DecidableEq for Except

namespace InPdf

/-! ### Page-range model (src/page_range.rs) -/

inductive Rotation where
  | None
  | Right
  | Down
  | Left
  deriving DecidableEq

inductive PageRef where
  | Number (n : Nat)
  | End
  deriving DecidableEq

structure PageRange where
  start : PageRef
  end_ : Option PageRef
  rotation : Rotation
  deriving DecidableEq

/-- Rust `str::trim` on a character list. -/
def trimChars (s : List Char) : List Char :=
  ((s.dropWhile Char.isWhitespace).reverse.dropWhile Char.isWhitespace).reverse

/-- The rotation denoted by a trailing tag character (the `match last` arm
of `PageRange::parse`); a non-tag character maps to `Rotation.None`. -/
def rotOfChar (c : Char) : Rotation :=
  if c = 'R' ∨ c = 'r' then Rotation.Right
  else if c = 'L' ∨ c = 'l' then Rotation.Left
  else if c = 'D' ∨ c = 'd' then Rotation.Down
  else Rotation.None

/-- The rotation-suffix stripping block of `PageRange::parse`: a trailing
tag character is removed only when the character before it is an ASCII
digit. -/
def stripRotation (s : List Char) : List Char × Rotation :=
  match s.reverse with
  | last :: second_last :: _ =>
    if second_last.isDigit then
      match rotOfChar last with
      | Rotation.None => (s, Rotation.None)
      | r => (s.dropLast, r)
    else (s, Rotation.None)
  | _ => (s, Rotation.None)

/-- The accumulated base-10 value of a digit string. -/
def digitsVal (s : List Char) : Nat :=
  s.foldl (fun acc c => acc * 10 + (c.toNat - 48)) 0

/-- Rust `str::parse::<u32>`: an optional leading plus sign, then a
non-empty run of ASCII digits whose value fits in 32 bits. -/
def parseU32 (s : List Char) : Option Nat :=
  let digits := match s with
    | c :: rest => if c = '+' then rest else s
    | [] => s
  if digits = [] then none
  else if digits.all Char.isDigit then
    let v := digitsVal digits
    if v < 4294967296 then some v else none
  else none

/-- Rust `str::find('-')`: index of the first dash. -/
def findDash : List Char → Option Nat
  | [] => none
  | c :: rest => if c = '-' then some 0 else (findDash rest).map (fun i => i + 1)

/-- Rust `eq_ignore_ascii_case("end")`. -/
def isEndKeyword (s : List Char) : Bool :=
  s.map Char.toLower == ['e', 'n', 'd']

/-- `parse_page_ref` from src/page_range.rs. -/
def parse_page_ref (s : List Char) : Except String PageRef :=
  let t := trimChars s
  if isEndKeyword t then Except.ok PageRef.End
  else
    match parseU32 t with
    | some n => Except.ok (PageRef.Number n)
    | none => Except.error (("Invalid page number: ") ++ String.mk t)

/-- `PageRange::parse` from src/page_range.rs. -/
def PageRange.parse (input : String) : Except String PageRange :=
  let s := trimChars input.data
  if s = [] then Except.error ("Empty page range")
  else
    let rp := stripRotation s
    let range_part := rp.1
    let rotation := rp.2
    match findDash range_part with
    | some 0 => Except.error (("Invalid page range: ") ++ String.mk s)
    | some dash_pos =>
      let start_str := range_part.take dash_pos
      let end_str := range_part.drop (dash_pos + 1)
      match parse_page_ref start_str with
      | Except.error e => Except.error e
      | Except.ok st =>
        match parse_page_ref end_str with
        | Except.error e => Except.error e
        | Except.ok en => Except.ok { start := st, end_ := some en, rotation := rotation }
    | none =>
      match parse_page_ref range_part with
      | Except.error e => Except.error e
      | Except.ok page => Except.ok { start := page, end_ := none, rotation := rotation }

/-- Resolution of a `PageRef` against the page count (the `match` arms at
the top of `PageRange::expand`). -/
def resolvePageRef (r : PageRef) (total_pages : Nat) : Nat :=
  match r with
  | PageRef.Number n => n
  | PageRef.End => total_pages

/-- The resolved start endpoint (the first `match` inside `expand`). -/
def resolvedStart (self : PageRange) (total_pages : Nat) : Nat :=
  resolvePageRef self.start total_pages

/-- The resolved end endpoint (the second `match` inside `expand`): an
absent end resolves to the start. -/
def resolvedEnd (self : PageRange) (total_pages : Nat) : Nat :=
  match self.end_ with
  | some r => resolvePageRef r total_pages
  | none => resolvedStart self total_pages

/-- `PageRange::expand` from src/page_range.rs. -/
def PageRange.expand (self : PageRange) (total_pages : Nat) : Except String (List Nat) :=
  let start := resolvedStart self total_pages
  let e := resolvedEnd self total_pages
  if start = 0 ∨ e = 0 then
    Except.error ("Page numbers must be >= 1")
  else if total_pages < start then
    Except.error ((("Start page ") ++ toString start) ++ (" exceeds total pages ") ++ toString total_pages)
  else if total_pages < e then
    Except.error ((("End page ") ++ toString e) ++ (" exceeds total pages ") ++ toString total_pages)
  else
    Except.ok (if start ≤ e then List.range' start (e - start + 1)
               else (List.range' e (start - e + 1)).reverse)

/-- `parse_page_ranges` from src/page_range.rs. -/
def parse_page_ranges (s : String) : Except String (List PageRange) :=
  (s.data.splitOn ',').mapM (fun part => PageRange.parse (String.mk (trimChars part)))

/-- The accumulation loop of `expand_page_ranges`. -/
def expandLoop (ranges : List PageRange) (total_pages : Nat) (acc : List Nat) :
    Except String (List Nat) :=
  match ranges with
  | [] => Except.ok acc
  | r :: rest =>
    match r.expand total_pages with
    | Except.ok ps => expandLoop rest total_pages (acc ++ ps)
    | Except.error e => Except.error e

/-- `expand_page_ranges` from src/page_range.rs. -/
def expand_page_ranges (s : String) (total_pages : Nat) : Except String (List Nat) :=
  match parse_page_ranges s with
  | Except.ok ranges => expandLoop ranges total_pages []
  | Except.error e => Except.error e

/-! ### Page-label model (src/pdf/page_labels.rs) -/

structure PageLabel where
  physical_page : Nat
  logical_label : String
  deriving DecidableEq

inductive LabelStyle where
  | Decimal
  | LowerRoman
  | UpperRoman
  | LowerAlpha
  | UpperAlpha
  | None
  deriving DecidableEq

structure PageLabelRange where
  start_page : Nat
  style : LabelStyle
  labelPrefix : String
  start_value : Nat
  deriving DecidableEq

/-- The inner `while n >= value` loop of `to_roman`, with an explicit fuel
bound (the loop runs at most `n` times since `value >= 1`). -/
def romanStepAux (value : Nat) (numeral : String) : Nat → Nat → String → Nat × String
  | 0, n, result => (n, result)
  | fuel + 1, n, result =>
    if 1 ≤ value ∧ value ≤ n then
      romanStepAux value numeral fuel (n - value) (result ++ numeral)
    else (n, result)

/-- One numeral-table entry of `to_roman`: append `numeral` while `value`
still fits into `n`. -/
def romanStep (value : Nat) (numeral : String) (n : Nat) (result : String) : Nat × String :=
  romanStepAux value numeral n n result

/-- The numeral table of `to_roman`. -/
def romanTable : List (Nat × String) :=
  [(1000, "M"), (900, "CM"), (500, "D"), (400, "CD"), (100, "C"), (90, "XC"),
   (50, "L"), (40, "XL"), (10, "X"), (9, "IX"), (5, "V"), (4, "IV"), (1, "I")]

/-- The `for (value, numeral) in values` loop of `to_roman`. -/
def romanFold : List (Nat × String) → Nat → String → String
  | [], _, result => result
  | (value, numeral) :: rest, n, result =>
    let p := romanStep value numeral n result
    romanFold rest p.1 p.2

/-- `to_roman` from src/pdf/page_labels.rs. -/
def to_roman (n : Nat) : String :=
  if n = 0 then ("0") else romanFold romanTable n ("")

/-- The letter-emitting loop of `to_alpha`, with an explicit fuel bound
(`remaining` strictly decreases each round, so `remaining + 1` rounds
always suffice). -/
def toAlphaLoopAux : Nat → Nat → List Char → List Char
  | 0, _, result => result
  | fuel + 1, remaining, result =>
    let letter := Char.ofNat (remaining % 26 + 65)
    let result := letter :: result
    if remaining < 26 then result else toAlphaLoopAux fuel (remaining / 26 - 1) result

/-- `to_alpha` from src/pdf/page_labels.rs. -/
def to_alpha (n : Nat) : String :=
  if n = 0 then ("") else String.mk (toAlphaLoopAux n (n - 1) [])

/-- The default label range used by `compute_label` when no range applies. -/
def defaultLabelRange : PageLabelRange :=
  { start_page := 0, style := LabelStyle.Decimal, labelPrefix := "", start_value := 1 }

/-- The `match range.style` rendering arm of `compute_label`. -/
def renderStyleNumber (style : LabelStyle) (value : Nat) : String :=
  match style with
  | LabelStyle.Decimal => toString value
  | LabelStyle.LowerRoman => (to_roman value).toLower
  | LabelStyle.UpperRoman => to_roman value
  | LabelStyle.LowerAlpha => (to_alpha value).toLower
  | LabelStyle.UpperAlpha => to_alpha value
  | LabelStyle.None => ""

/-- `compute_label` from src/pdf/page_labels.rs.  The value computation
`range.start_value + offset` is an unchecked `u32` addition in the
source, so it is taken modulo `2^32` here (the subtraction cannot
underflow: the found range satisfies `start_page ≤ page_index`, and the
default range has `start_page = 0`). -/
def compute_label (ranges : List PageLabelRange) (page_index : Nat) : String :=
  let range := (ranges.reverse.find? (fun r => decide (r.start_page ≤ page_index))).getD
    defaultLabelRange
  let offset := page_index - range.start_page
  let value := (range.start_value + offset) % 4294967296
  range.labelPrefix ++ renderStyleNumber range.style value

/-- The `for physical_page in 1..=total_pages` loop of
`extract_page_labels_from_doc`. -/
def labelsLoop (ranges : List PageLabelRange) (total_pages : Nat) : List PageLabel :=
  (List.range' 1 total_pages).map (fun physical_page =>
    { physical_page := physical_page, logical_label := compute_label ranges (physical_page - 1) })

/-- `generate_default_labels` from src/pdf/page_labels.rs. -/
def generate_default_labels (total_pages : Nat) : List PageLabel :=
  (List.range' 1 total_pages).map (fun p =>
    { physical_page := p, logical_label := toString p })

/-- Modelled from the spec: a numeral string repeated a given number of
times, used to phrase greedy consumption of a roman-table entry. -/
def repeatStr : Nat → String → String
  | 0, _ => ""
  | k + 1, s => s ++ repeatStr k s

/-- Modelled from the spec: greedy largest-first consumption of the roman
numeral table — each entry contributes its numeral once per time its value
still fits, then passes the remainder on. -/
def romanSpecFold : List (Nat × String) → Nat → String
  | [], _ => ""
  | (value, numeral) :: rest, n => repeatStr (n / value) numeral ++ romanSpecFold rest (n % value)

/-- Modelled from the spec: the bijective base-26 digit string of `n` over
`A..Z` with `A = 1` (so 26 is `Z`, 27 is `AA`). -/
def alphaSpecData (n : Nat) : List Char :=
  if n = 0 then [] else alphaSpecData ((n - 1) / 26) ++ [Char.ofNat ((n - 1) % 26 + 65)]
  termination_by n
  decreasing_by
    have h1 : (n - 1) / 26 ≤ n - 1 := Nat.div_le_self _ _
    omega

/-- Modelled from the spec: the range applicable to zero-indexed page `p`
is the last listed range whose `start_page` is at most `p`, defaulting to
the decimal identity range. -/
def specApplicableRange (ranges : List PageLabelRange) (p : Nat) : PageLabelRange :=
  ((ranges.filter (fun r => decide (r.start_page ≤ p))).getLast?).getD defaultLabelRange

/-! ### lopdf object-graph model (the external object store of the spec) -/

abbrev ObjectId := Nat × Nat

inductive StringFormat where
  | Literal
  | Hexadecimal
  deriving DecidableEq

inductive Object where
  | Null
  | Boolean (b : Bool)
  | Integer (i : Int)
  | Real
  | Name (bytes : List Nat)
  | String (bytes : List Nat) (fmt : StringFormat)
  | Array (elems : List Object)
  | Dictionary (entries : List (List Nat × Object))
  | Stream
  | Reference (id : ObjectId)

abbrev Dict := List (List Nat × Object)

/-- The byte string of an ASCII key. -/
def bs (s : String) : List Nat := s.data.map Char.toNat

/-- lopdf `Dictionary::get`: first entry with a byte-identical key. -/
def dictGet (d : Dict) (key : List Nat) : Except String Object :=
  match d.find? (fun e => e.1 == key) with
  | some e => Except.ok e.2
  | none => Except.error ("missing dictionary key")

/-- The object store: an id-indexed object list, the catalog lookup result,
and the authoritative 1-based page-number to page-object-id list. -/
structure Document where
  objects : List (ObjectId × Object)
  catalogE : Except String Dict
  pages : List (Nat × ObjectId)

/-- lopdf `Document::get_object`. -/
def docGetObject (doc : Document) (id : ObjectId) : Except String Object :=
  match doc.objects.find? (fun e => e.1 == id) with
  | some e => Except.ok e.2
  | none => Except.error ("object not found")

/-- lopdf `Document::get_dictionary`. -/
def docGetDictionary (doc : Document) (id : ObjectId) : Except String Dict :=
  match docGetObject doc id with
  | Except.ok (Object.Dictionary d) => Except.ok d
  | Except.ok _ => Except.error ("object is not a dictionary")
  | Except.error e => Except.error e

/-- Big-endian 16-bit code units from a byte list (Rust
`chunks(2)` keeping only complete pairs). -/
def utf16Units : List Nat → List Nat
  | b1 :: b2 :: rest => (b1 * 256 + b2) :: utf16Units rest
  | _ => []

/-- Rust `String::from_utf16_lossy`: surrogate pairs combine, lone
surrogates become U+FFFD. -/
def utf16Lossy : List Nat → List Char
  | [] => []
  | [u] =>
    if (0xD800 ≤ u ∧ u ≤ 0xDBFF) ∨ (0xDC00 ≤ u ∧ u ≤ 0xDFFF) then [Char.ofNat 0xFFFD]
    else [Char.ofNat u]
  | u :: v :: rest =>
    if 0xD800 ≤ u ∧ u ≤ 0xDBFF then
      if 0xDC00 ≤ v ∧ v ≤ 0xDFFF then
        Char.ofNat (0x10000 + (u - 0xD800) * 1024 + (v - 0xDC00)) :: utf16Lossy rest
      else Char.ofNat 0xFFFD :: utf16Lossy (v :: rest)
    else if 0xDC00 ≤ u ∧ u ≤ 0xDFFF then Char.ofNat 0xFFFD :: utf16Lossy (v :: rest)
    else Char.ofNat u :: utf16Lossy (v :: rest)

/-- `decode_pdf_string` shared by src/pdf/page_labels.rs and
src/pdf/toc.rs: UTF-16BE after an FE FF byte-order mark, else each byte
as one Latin-1 code point. -/
def decode_pdf_string (bytes : List Nat) : String :=
  match bytes with
  | 0xFE :: 0xFF :: rest => String.mk (utf16Lossy (utf16Units rest))
  | _ => String.mk (bytes.map Char.ofNat)

/-- Rust `as u32` truncating cast from `i64`. -/
def u32cast (i : Int) : Nat := (i % 4294967296).toNat

/-! ### Page-label number-tree decoding (src/pdf/page_labels.rs) -/

/-- The `S` style lookup of `parse_nums_array`. -/
def styleFromDict (d : Dict) : LabelStyle :=
  match dictGet d (bs ("S")) with
  | Except.ok (Object.Name name) =>
    if name == bs ("D") then LabelStyle.Decimal
    else if name == bs ("r") then LabelStyle.LowerRoman
    else if name == bs ("R") then LabelStyle.UpperRoman
    else if name == bs ("a") then LabelStyle.LowerAlpha
    else if name == bs ("A") then LabelStyle.UpperAlpha
    else LabelStyle.Decimal
  | _ => LabelStyle.None

/-- The label range a `Nums` chunk builds in `parse_nums_array`. -/
def rangeFromDict (start_page : Nat) (d : Dict) : PageLabelRange :=
  { start_page := start_page
    style := styleFromDict d
    labelPrefix := match dictGet d (bs ("P")) with
      | Except.ok (Object.String bytes _) => decode_pdf_string bytes
      | _ => ""
    start_value := match dictGet d (bs ("St")) with
      | Except.ok (Object.Integer n) => u32cast n
      | _ => 1 }

/-- `parse_nums_array` from src/pdf/page_labels.rs: walk `Nums` in
chunks of two, skipping malformed chunks. -/
def parse_nums_array (doc : Document) : List Object → List PageLabelRange
  | a :: b :: rest =>
    (match a with
     | Object.Integer n =>
       (match b with
        | Object.Dictionary d => [rangeFromDict (u32cast n) d]
        | Object.Reference r =>
          (match docGetDictionary doc r with
           | Except.ok d => [rangeFromDict (u32cast n) d]
           | _ => [])
        | _ => [])
     | _ => []) ++ parse_nums_array doc rest
  | _ => []

/-- Stable insertion used to model Rust's stable `sort_by_key`. -/
def insertByStart (x : PageLabelRange) : List PageLabelRange → List PageLabelRange
  | [] => [x]
  | y :: ys => if y.start_page ≤ x.start_page then y :: insertByStart x ys else x :: y :: ys

/-- Stable sort of label ranges by `start_page`. -/
def sortByStartPage (l : List PageLabelRange) : List PageLabelRange :=
  l.foldl (fun acc x => insertByStart x acc) []

mutual
/-- `parse_number_tree` from src/pdf/page_labels.rs, with fuel bounding
the `Kids` recursion. -/
def parse_number_tree (fuel : Nat) (doc : Document) (dict : Dict) : List PageLabelRange :=
  match fuel with
  | 0 => []
  | f + 1 =>
    let numsRanges := match dictGet dict (bs ("Nums")) with
      | Except.ok (Object.Array nums) => parse_nums_array doc nums
      | _ => []
    let kidsRanges := match dictGet dict (bs ("Kids")) with
      | Except.ok (Object.Array kids) => numberTreeKids f doc kids
      | _ => []
    sortByStartPage (numsRanges ++ kidsRanges)

/-- The `for kid in kids` loop of `parse_number_tree`. -/
def numberTreeKids (fuel : Nat) (doc : Document) (kids : List Object) : List PageLabelRange :=
  match fuel with
  | 0 => []
  | f + 1 =>
    match kids with
    | [] => []
    | kid :: rest =>
      (match kid with
       | Object.Reference kid_ref =>
         (match docGetDictionary doc kid_ref with
          | Except.ok kid_dict => parse_number_tree f doc kid_dict
          | _ => [])
       | _ => []) ++ numberTreeKids f doc rest
end

/-- `extract_page_labels_from_doc` from src/pdf/page_labels.rs. -/
def extract_page_labels_from_doc (fuel : Nat) (doc : Document) :
    Except String (List PageLabel) :=
  let total_pages := doc.pages.length
  match doc.catalogE with
  | Except.error e => Except.error e
  | Except.ok catalog =>
    match dictGet catalog (bs ("PageLabels")) with
    | Except.ok (Object.Reference r) =>
      (match docGetDictionary doc r with
       | Except.ok page_labels_dict =>
         let ranges := parse_number_tree fuel doc page_labels_dict
         Except.ok (labelsLoop ranges total_pages)
       | _ => Except.ok (generate_default_labels total_pages))
    | Except.ok (Object.Dictionary _) => Except.ok (generate_default_labels total_pages)
    | _ => Except.ok (generate_default_labels total_pages)

/-! ### TOC and destination model (src/pdf/toc.rs) -/

inductive TocEntry where
  | mk (title : String) (page : Option Nat) (level : Nat) (children : List TocEntry)

abbrev PageMap := List (ObjectId × Nat)

/-- `get_page_from_dest_array` from src/pdf/toc.rs. -/
def get_page_from_dest_array (arr : List Object) (page_map : PageMap) : Option Nat :=
  match arr.head? with
  | some (Object.Reference page_ref) =>
    (match page_map.find? (fun e => e.1 == page_ref) with
     | some e => some e.2
     | none => none)
  | _ => none

mutual
/-- `resolve_destination` from src/pdf/toc.rs, with fuel bounding the
reference and named-destination recursion. -/
def resolve_destination (fuel : Nat) (doc : Document) (dest : Object) (page_map : PageMap) :
    Option Nat :=
  match fuel with
  | 0 => none
  | f + 1 =>
    match dest with
    | Object.String name _ => resolve_named_destination f doc name page_map
    | Object.Name name => resolve_named_destination f doc name page_map
    | Object.Array arr => get_page_from_dest_array arr page_map
    | Object.Reference r =>
      (match docGetObject doc r with
       | Except.ok obj => resolve_destination f doc obj page_map
       | _ => none)
    | _ => none

/-- `resolve_named_destination` from src/pdf/toc.rs: the modern
`Names/Dests` name tree is searched first; the legacy `Dests` dictionary
is consulted only when that search produced no page. -/
def resolve_named_destination (fuel : Nat) (doc : Document) (name : List Nat)
    (page_map : PageMap) : Option Nat :=
  match fuel with
  | 0 => none
  | f + 1 =>
    match doc.catalogE with
    | Except.ok catalog =>
      let fromTree : Option Nat :=
        match dictGet catalog (bs ("Names")) with
        | Except.ok (Object.Reference names_ref) =>
          (match docGetDictionary doc names_ref with
           | Except.ok names_dict =>
             (match dictGet names_dict (bs ("Dests")) with
              | Except.ok (Object.Reference dests_ref) =>
                search_name_tree f doc dests_ref name page_map
              | _ => none)
           | _ => none)
        | _ => none
      match fromTree with
      | some page => some page
      | none =>
        match dictGet catalog (bs ("Dests")) with
        | Except.ok (Object.Reference dests_ref) =>
          (match docGetDictionary doc dests_ref with
           | Except.ok dests_dict =>
             (match dictGet dests_dict name with
              | Except.ok dest => resolve_destination f doc dest page_map
              | _ => none)
           | _ => none)
        | _ => none
    | _ => none

/-- `search_name_tree` from src/pdf/toc.rs. -/
def search_name_tree (fuel : Nat) (doc : Document) (node_id : ObjectId) (name : List Nat)
    (page_map : PageMap) : Option Nat :=
  match fuel with
  | 0 => none
  | f + 1 =>
    match docGetDictionary doc node_id with
    | Except.error _ => none
    | Except.ok dict =>
      let leafHit : Option (Option Nat) :=
        match dictGet dict (bs ("Names")) with
        | Except.ok (Object.Array names) => searchNamesChunks f doc names name page_map
        | _ => none
      match leafHit with
      | some res => res
      | none =>
        match dictGet dict (bs ("Kids")) with
        | Except.ok (Object.Array kids) => searchKids f doc kids name page_map
        | _ => none

/-- The `Names` leaf loop of `search_name_tree`: a matching key returns
the resolution of its value outright (even when that is `none`). -/
def searchNamesChunks (fuel : Nat) (doc : Document) (names : List Object) (name : List Nat)
    (page_map : PageMap) : Option (Option Nat) :=
  match fuel with
  | 0 => none
  | f + 1 =>
    match names with
    | a :: b :: rest =>
      (match a with
       | Object.String key _ =>
         if key == name then some (resolve_destination f doc b page_map)
         else searchNamesChunks f doc rest name page_map
       | _ => searchNamesChunks f doc rest name page_map)
    | _ => none

/-- The `Kids` loop of `search_name_tree`. -/
def searchKids (fuel : Nat) (doc : Document) (kids : List Object) (name : List Nat)
    (page_map : PageMap) : Option Nat :=
  match fuel with
  | 0 => none
  | f + 1 =>
    match kids with
    | kid :: rest =>
      (match kid with
       | Object.Reference kid_ref =>
         (match search_name_tree f doc kid_ref name page_map with
          | some page => some page
          | none => searchKids f doc rest name page_map)
       | _ => searchKids f doc rest name page_map)
    | [] => none
end

/-- `get_destination_page` from src/pdf/toc.rs: a direct `Dest` wins; then
a `GoTo` action behind an `A` reference; then an inline `A` dictionary. -/
def get_destination_page (fuel : Nat) (doc : Document) (dict : Dict) (page_map : PageMap) :
    Option Nat :=
  match dictGet dict (bs ("Dest")) with
  | Except.ok dest => resolve_destination fuel doc dest page_map
  | Except.error _ =>
    let viaReference : Option (Option Nat) :=
      match dictGet dict (bs ("A")) with
      | Except.ok (Object.Reference action_ref) =>
        (match docGetDictionary doc action_ref with
         | Except.ok action_dict =>
           (match dictGet action_dict (bs ("S")) with
            | Except.ok (Object.Name action_type) =>
              if action_type == bs ("GoTo") then
                match dictGet action_dict (bs ("D")) with
                | Except.ok dest => some (resolve_destination fuel doc dest page_map)
                | _ => none
              else none
            | _ => none)
         | _ => none)
      | _ => none
    match viaReference with
    | some res => res
    | none =>
      match dictGet dict (bs ("A")) with
      | Except.ok (Object.Dictionary action_dict) =>
        (match dictGet action_dict (bs ("S")) with
         | Except.ok (Object.Name action_type) =>
           if action_type == bs ("GoTo") then
             match dictGet action_dict (bs ("D")) with
             | Except.ok dest => resolve_destination fuel doc dest page_map
             | _ => none
           else none
         | _ => none)
      | _ => none

/-- Stable insertion used to model the `sort_by_key` in `build_page_map`. -/
def insertByNum (x : Nat × ObjectId) : List (Nat × ObjectId) → List (Nat × ObjectId)
  | [] => [x]
  | y :: ys => if y.1 ≤ x.1 then y :: insertByNum x ys else x :: y :: ys

/-- `build_page_map` from src/pdf/toc.rs. -/
def build_page_map (doc : Document) : PageMap :=
  (doc.pages.foldl (fun acc x => insertByNum x acc) []).map (fun e => (e.2, e.1))

/-- `parse_outline_items` from src/pdf/toc.rs, with fuel bounding the
sibling/child traversal. -/
def parse_outline_items (fuel : Nat) (doc : Document) (first_id : ObjectId)
    (page_map : PageMap) (level : Nat) : Except String (List TocEntry) :=
  match fuel with
  | 0 => Except.ok []
  | f + 1 =>
    match docGetDictionary doc first_id with
    | Except.error _ => Except.ok []
    | Except.ok dict =>
      let title := match dictGet dict (bs ("Title")) with
        | Except.ok (Object.String bytes _) => decode_pdf_string bytes
        | _ => "Untitled"
      let page := get_destination_page f doc dict page_map
      match (match dictGet dict (bs ("First")) with
             | Except.ok (Object.Reference child_ref) =>
               parse_outline_items f doc child_ref page_map (level + 1)
             | _ => Except.ok []) with
      | Except.error e => Except.error e
      | Except.ok children =>
        match (match dictGet dict (bs ("Next")) with
               | Except.ok (Object.Reference next_ref) =>
                 parse_outline_items f doc next_ref page_map level
               | _ => Except.ok []) with
        | Except.error e => Except.error e
        | Except.ok rest => Except.ok (TocEntry.mk title page level children :: rest)

/-- `extract_toc_from_doc` from src/pdf/toc.rs. -/
def extract_toc_from_doc (fuel : Nat) (doc : Document) : Except String (List TocEntry) :=
  match doc.catalogE with
  | Except.error e => Except.error e
  | Except.ok catalog =>
    match dictGet catalog (bs ("Outlines")) with
    | Except.ok (Object.Reference outlines_ref) =>
      (match docGetDictionary doc outlines_ref with
       | Except.ok outlines =>
         let page_map := build_page_map doc
         (match dictGet outlines (bs ("First")) with
          | Except.ok (Object.Reference first_ref) =>
            parse_outline_items fuel doc first_ref page_map 0
          | _ => Except.ok [])
       | _ => Except.ok [])
    | _ => Except.ok []

/-- Modelled from the spec: each comma segment's expansion collected left
to right, failing fast on the first error. -/
def expandEach (ranges : List PageRange) (total_pages : Nat) :
    Except String (List (List Nat)) :=
  match ranges with
  | [] => Except.ok []
  | r :: rest =>
    match r.expand total_pages with
    | Except.ok ps =>
      (match expandEach rest total_pages with
       | Except.ok tail => Except.ok (ps :: tail)
       | Except.error e => Except.error e)
    | Except.error e => Except.error e

/-! ### Helper lemmas -/

theorem expandLoop_eq_expandEach (ranges : List PageRange) (total_pages : Nat)
    (acc : List Nat) :
    expandLoop ranges total_pages acc =
      match expandEach ranges total_pages with
      | Except.ok ls => Except.ok (acc ++ ls.flatten)
      | Except.error e => Except.error e := by
  induction ranges generalizing acc with
  | nil => simp [expandLoop, expandEach]
  | cons r rest ih =>
    cases hr : r.expand total_pages with
    | error e => simp [expandLoop, expandEach, hr]
    | ok ps =>
      simp only [expandLoop, expandEach, hr]
      rw [ih]
      cases hrest : expandEach rest total_pages with
      | error e => simp
      | ok ls => simp [List.append_assoc]

theorem expandEach_error_of_mem (ranges : List PageRange) (total_pages : Nat)
    (r : PageRange) (e : String) (hmem : r ∈ ranges)
    (herr : r.expand total_pages = Except.error e) :
    ∃ e2, expandEach ranges total_pages = Except.error e2 := by
  induction ranges with
  | nil => cases hmem
  | cons x rest ih =>
    rcases List.mem_cons.mp hmem with h | h
    · subst h
      exact ⟨e, by simp [expandEach, herr]⟩
    · cases hx : x.expand total_pages with
      | error e3 => exact ⟨e3, by simp [expandEach, hx]⟩
      | ok ps =>
        obtain ⟨e2, h2⟩ := ih h
        exact ⟨e2, by simp [expandEach, hx, h2]⟩

theorem digit_toNat_bounds (c : Char) (h : c.isDigit = true) :
    48 ≤ c.toNat ∧ c.toNat ≤ 57 := by
  simp only [Char.isDigit, Bool.and_eq_true, decide_eq_true_eq, ge_iff_le] at h
  obtain ⟨h1, h2⟩ := h
  exact ⟨h1, h2⟩

theorem digit_toLower (c : Char) (h : c.isDigit = true) : c.toLower = c := by
  obtain ⟨h1, h2⟩ := digit_toNat_bounds c h
  unfold Char.toLower
  rw [if_neg]
  omega

theorem digit_ne (c x : Char) (h : c.isDigit = true) (hx : x.isDigit = false) : c ≠ x := by
  intro hcon
  subst hcon
  rw [h] at hx
  cases hx

theorem digit_not_ws (c : Char) (h : c.isDigit = true) : c.isWhitespace = false := by
  cases hw : c.isWhitespace
  · rfl
  · exfalso
    simp only [Char.isWhitespace, Bool.or_eq_true, decide_eq_true_eq] at hw
    rcases hw with ((rfl | rfl) | rfl) | rfl <;> exact absurd h (by decide)

theorem rotOfChar_digit (c : Char) (h : c.isDigit = true) : rotOfChar c = Rotation.None := by
  unfold rotOfChar
  rw [if_neg, if_neg, if_neg]
  · rintro (rfl | rfl) <;> exact absurd h (by decide)
  · rintro (rfl | rfl) <;> exact absurd h (by decide)
  · rintro (rfl | rfl) <;> exact absurd h (by decide)

theorem dropWhile_eq_self_of_all (p : Char → Bool) (l : List Char)
    (h : ∀ c ∈ l, p c = false) : l.dropWhile p = l := by
  cases l with
  | nil => rfl
  | cons x xs =>
    have hx : p x = false := h x (List.mem_cons_self x xs)
    rw [List.dropWhile_cons, hx]
    simp

theorem trimChars_eq_self (l : List Char) (h : ∀ c ∈ l, c.isWhitespace = false) :
    trimChars l = l := by
  unfold trimChars
  rw [dropWhile_eq_self_of_all _ _ h]
  rw [dropWhile_eq_self_of_all _ _ (by intro c hc; exact h c (List.mem_reverse.mp hc))]
  rw [List.reverse_reverse]

theorem isEndKeyword_digits (l : List Char) (h : l.all Char.isDigit = true) :
    isEndKeyword l = false := by
  cases l with
  | nil => rfl
  | cons a l1 =>
    cases he : isEndKeyword (a :: l1)
    · rfl
    · exfalso
      simp only [isEndKeyword] at he
      have hmap : (a :: l1).map Char.toLower = ['e', 'n', 'd'] := eq_of_beq he
      have hda : a.isDigit = true := by
        simp only [List.all_cons, Bool.and_eq_true] at h
        exact h.1
      simp only [List.map_cons] at hmap
      have hlow : a.toLower = 'e' := (List.cons.injEq _ _ _ _ ▸ hmap).1
      rw [digit_toLower a hda] at hlow
      subst hlow
      exact absurd hda (by decide)

theorem parseU32_digits (l : List Char) (hne : l ≠ []) (h : l.all Char.isDigit = true)
    (hb : digitsVal l < 4294967296) : parseU32 l = some (digitsVal l) := by
  cases l with
  | nil => exact absurd rfl hne
  | cons a l1 =>
    have hda : a.isDigit = true := by
      simp only [List.all_cons, Bool.and_eq_true] at h
      exact h.1
    have hnp : a ≠ '+' := digit_ne a '+' hda (by decide)
    simp only [parseU32]
    rw [if_neg hnp, if_neg (show ¬(a :: l1 = []) by simp), if_pos h, if_pos hb]

theorem parse_page_ref_digits (l : List Char) (hne : l ≠ [])
    (h : l.all Char.isDigit = true) (hb : digitsVal l < 4294967296) :
    parse_page_ref l = Except.ok (PageRef.Number (digitsVal l)) := by
  have htrim : trimChars l = l :=
    trimChars_eq_self l (fun c hc => digit_not_ws c (List.all_eq_true.mp h c hc))
  simp only [parse_page_ref, htrim]
  rw [isEndKeyword_digits l h]
  simp only [Bool.false_eq_true, if_false]
  rw [parseU32_digits l hne h hb]

theorem findDash_of_no_dash (l : List Char) (h : ∀ c ∈ l, c ≠ '-') :
    findDash l = none := by
  induction l with
  | nil => rfl
  | cons a rest ih =>
    simp only [findDash]
    rw [if_neg (h a (List.mem_cons_self _ _)), ih (fun c hc => h c (List.mem_cons_of_mem _ hc))]
    rfl

theorem findDash_append (d1 d2 : List Char) (h : ∀ c ∈ d1, c ≠ '-') :
    findDash (d1 ++ '-' :: d2) = some d1.length := by
  induction d1 with
  | nil => simp [findDash]
  | cons a rest ih =>
    simp only [List.cons_append, findDash, List.append_eq]
    rw [if_neg (h a (List.mem_cons_self _ _)), ih (fun c hc => h c (List.mem_cons_of_mem _ hc))]
    rfl

theorem stripRotation_no_tag (t : List Char) (c : Char) (hc : rotOfChar c = Rotation.None) :
    stripRotation (t ++ [c]) = (t ++ [c], Rotation.None) := by
  have hrev : (t ++ [c]).reverse = c :: t.reverse := by simp
  unfold stripRotation
  rw [hrev]
  cases ht : t.reverse with
  | nil => rfl
  | cons d rest =>
    simp only [hc]
    split <;> rfl

theorem stripRotation_eq (t : List Char) (d c : Char) :
    stripRotation (t ++ [d, c]) =
      if d.isDigit = true then
        (match rotOfChar c with
         | Rotation.None => (t ++ [d, c], Rotation.None)
         | r => (t ++ [d], r))
      else (t ++ [d, c], Rotation.None) := by
  have hrev : (t ++ [d, c]).reverse = c :: d :: t.reverse := by simp
  have hdrop : (t ++ [d, c]).dropLast = t ++ [d] := by
    have h2 : t ++ [d, c] = (t ++ [d]) ++ [c] := by simp
    rw [h2, List.dropLast_concat]
  simp only [stripRotation, hrev, hdrop]

theorem string_data_mk (l : List Char) : (String.mk l).data = l := rfl

theorem romanStepAux_eq (value : Nat) (s : String) (fuel : Nat) :
    ∀ (n : Nat) (r : String), 1 ≤ value → n ≤ fuel →
      romanStepAux value s fuel n r = (n % value, r ++ repeatStr (n / value) s) := by
  induction fuel with
  | zero =>
    intro n r hv hfuel
    have hn : n = 0 := Nat.le_zero.mp hfuel
    subst hn
    simp [romanStepAux, Nat.zero_mod, Nat.zero_div, repeatStr, String.append_empty]
  | succ f ih =>
    intro n r hv hfuel
    by_cases hle : value ≤ n
    · simp only [romanStepAux]
      rw [if_pos ⟨hv, hle⟩]
      rw [ih (n - value) (r ++ s) hv (by omega)]
      have hmod : n % value = (n - value) % value := Nat.mod_eq_sub_mod hle
      have hdiv : n / value = (n - value) / value + 1 := Nat.div_eq_sub_div hv hle
      rw [hmod, hdiv, repeatStr, String.append_assoc]
    · simp only [romanStepAux]
      rw [if_neg (fun hcon => hle hcon.2)]
      have hmod : n % value = n := Nat.mod_eq_of_lt (by omega)
      have hdiv : n / value = 0 := Nat.div_eq_of_lt (by omega)
      rw [hmod, hdiv, repeatStr, String.append_empty]

theorem romanStep_eq (value : Nat) (s : String) (n : Nat) (r : String) (hv : 1 ≤ value) :
    romanStep value s n r = (n % value, r ++ repeatStr (n / value) s) :=
  romanStepAux_eq value s n n r hv le_rfl

theorem romanFold_eq (table : List (Nat × String)) :
    ∀ (n : Nat) (r : String), (∀ e ∈ table, 1 ≤ e.1) →
      romanFold table n r = r ++ romanSpecFold table n := by
  induction table with
  | nil =>
    intro n r htab
    simp [romanFold, romanSpecFold, String.append_empty]
  | cons e rest ih =>
    intro n r htab
    obtain ⟨value, s⟩ := e
    simp only [romanFold, romanSpecFold]
    rw [romanStep_eq value s n r (htab (value, s) (List.mem_cons_self _ _))]
    rw [ih _ _ (fun e he => htab e (List.mem_cons_of_mem _ he))]
    rw [String.append_assoc]

theorem find?_reverse_eq_getLast?_filter {α : Type} (p : α → Bool) (l : List α) :
    l.reverse.find? p = (l.filter p).getLast? := by
  induction l using List.reverseRecOn with
  | nil => rfl
  | append_singleton ys y ih =>
    rw [List.reverse_append]
    simp only [List.reverse_cons, List.reverse_nil, List.nil_append, List.singleton_append]
    rw [List.find?_cons]
    cases hpy : p y with
    | true =>
      have hy1 : List.filter p [y] = [y] := by simp [hpy]
      rw [List.filter_append, hy1, List.getLast?_concat]
    | false =>
      have hy0 : List.filter p [y] = [] := by simp [hpy]
      rw [List.filter_append, hy0, List.append_nil]
      exact ih

theorem alphaSpecData_eq (n : Nat) :
    alphaSpecData n =
      if n = 0 then [] else alphaSpecData ((n - 1) / 26) ++ [Char.ofNat ((n - 1) % 26 + 65)] := by
  rw [alphaSpecData]

theorem alphaLoop_eq (fuel : Nat) :
    ∀ (remaining : Nat) (acc : List Char), remaining < fuel →
      toAlphaLoopAux fuel remaining acc = alphaSpecData (remaining + 1) ++ acc := by
  induction fuel with
  | zero => intro remaining acc h; omega
  | succ f ih =>
    intro remaining acc h
    simp only [toAlphaLoopAux]
    by_cases h26 : remaining < 26
    · rw [if_pos h26]
      rw [alphaSpecData_eq, if_neg (by omega), Nat.add_sub_cancel,
        Nat.div_eq_of_lt h26, alphaSpecData_eq]
      simp
    · rw [if_neg h26]
      have hlt : remaining / 26 - 1 < f := by
        have hd : remaining / 26 < remaining := Nat.div_lt_self (by omega) (by omega)
        omega
      rw [ih (remaining / 26 - 1) _ hlt]
      have h1 : remaining / 26 - 1 + 1 = remaining / 26 := by
        have hone : 1 ≤ remaining / 26 := (Nat.one_le_div_iff (by omega)).mpr (by omega)
        omega
      rw [h1]
      conv_rhs => rw [alphaSpecData_eq]
      rw [if_neg (by omega), Nat.add_sub_cancel]
      simp [List.append_assoc]

theorem parse_digits (d : List Char) (hne : d ≠ []) (h : d.all Char.isDigit = true)
    (hb : digitsVal d < 4294967296) :
    PageRange.parse (String.mk d) =
      Except.ok { start := PageRef.Number (digitsVal d), end_ := none,
                  rotation := Rotation.None } := by
  have hmem : ∀ c ∈ d, c.isDigit = true := List.all_eq_true.mp h
  have htrim : trimChars d = d :=
    trimChars_eq_self d (fun c hc => digit_not_ws c (hmem c hc))
  obtain ⟨L, y, hd⟩ : ∃ L y, d = L ++ [y] := by
    rcases List.eq_nil_or_concat d with h0 | ⟨L, y, h0⟩
    · exact absurd h0 hne
    · exact ⟨L, y, by simpa [List.concat_eq_append] using h0⟩
  have hy : y.isDigit = true := hmem y (by rw [hd]; simp)
  have hstrip : stripRotation d = (d, Rotation.None) := by
    conv_lhs => rw [hd]
    rw [stripRotation_no_tag L y (rotOfChar_digit y hy), ← hd]
  have hfind : findDash d = none :=
    findDash_of_no_dash d (fun c hc => digit_ne c '-' (hmem c hc) (by decide))
  simp only [PageRange.parse, string_data_mk, htrim]
  rw [if_neg hne]
  simp only [hstrip]
  rw [hfind]
  rw [parse_page_ref_digits d hne h hb]

theorem parse_digit_pair (d1 d2 : List Char) (h1ne : d1 ≠ []) (h2ne : d2 ≠ [])
    (h1 : d1.all Char.isDigit = true) (h2 : d2.all Char.isDigit = true)
    (hb1 : digitsVal d1 < 4294967296) (hb2 : digitsVal d2 < 4294967296) :
    PageRange.parse (String.mk (d1 ++ '-' :: d2)) =
      Except.ok { start := PageRef.Number (digitsVal d1),
                  end_ := some (PageRef.Number (digitsVal d2)),
                  rotation := Rotation.None } := by
  have hmem1 : ∀ c ∈ d1, c.isDigit = true := List.all_eq_true.mp h1
  have hmem2 : ∀ c ∈ d2, c.isDigit = true := List.all_eq_true.mp h2
  have hallws : ∀ c ∈ d1 ++ '-' :: d2, c.isWhitespace = false := by
    intro c hc
    rcases List.mem_append.mp hc with hc1 | hc2
    · exact digit_not_ws c (hmem1 c hc1)
    · rcases List.mem_cons.mp hc2 with rfl | hc3
      · decide
      · exact digit_not_ws c (hmem2 c hc3)
  have htrim : trimChars (d1 ++ '-' :: d2) = d1 ++ '-' :: d2 := trimChars_eq_self _ hallws
  have hnn : d1 ++ '-' :: d2 ≠ [] := by simp
  obtain ⟨L, y, hd⟩ : ∃ L y, d2 = L ++ [y] := by
    rcases List.eq_nil_or_concat d2 with h0 | ⟨L, y, h0⟩
    · exact absurd h0 h2ne
    · exact ⟨L, y, by simpa [List.concat_eq_append] using h0⟩
  have hy : y.isDigit = true := hmem2 y (by rw [hd]; simp)
  have hstrip : stripRotation (d1 ++ '-' :: d2) = (d1 ++ '-' :: d2, Rotation.None) := by
    have hshape : d1 ++ '-' :: d2 = (d1 ++ '-' :: L) ++ [y] := by rw [hd]; simp
    conv_lhs => rw [hshape]
    rw [stripRotation_no_tag _ y (rotOfChar_digit y hy), ← hshape]
  have hfind : findDash (d1 ++ '-' :: d2) = some d1.length :=
    findDash_append d1 d2 (fun c hc => digit_ne c '-' (hmem1 c hc) (by decide))
  obtain ⟨a, d1tail, hd1⟩ : ∃ a t, d1 = a :: t := by
    cases d1 with
    | nil => exact absurd rfl h1ne
    | cons a t => exact ⟨a, t, rfl⟩
  have htake : (d1 ++ '-' :: d2).take d1.length = d1 := List.take_left d1 _
  have hdrop : (d1 ++ '-' :: d2).drop (d1.length + 1) = d2 := by
    have hshape2 : d1 ++ '-' :: d2 = (d1 ++ ['-']) ++ d2 := by simp
    have hlen2 : d1.length + 1 = (d1 ++ ['-']).length := by simp
    rw [hshape2, hlen2, List.drop_left]
  simp only [PageRange.parse, string_data_mk, htrim]
  rw [if_neg hnn]
  simp only [hstrip]
  rw [hfind]
  subst hd1
  simp only [List.length_cons]
  rw [show (a :: d1tail) ++ '-' :: d2 = ((a :: d1tail) ++ ['-']) ++ d2 by simp] at htake hdrop ⊢
  simp only [List.length_cons] at htake hdrop
  rw [htake, hdrop]
  rw [parse_page_ref_digits _ h1ne h1 hb1, parse_page_ref_digits _ h2ne h2 hb2]

/-! ### Claims -/

/-- C1: `expand` resolves `End` to `total_pages`; a range with no explicit
end expands to the single start value; when both resolved endpoints lie in
`1..=total_pages` the result is the inclusive ascending run when
start ≤ end and the inclusive descending run when start > end, of length
`|start - end| + 1` in both cases. -/
theorem expand_yields_inclusive_runs (pr : PageRange) (total_pages : Nat)
    (h1 : 1 ≤ resolvedStart pr total_pages) (h2 : resolvedStart pr total_pages ≤ total_pages)
    (h3 : 1 ≤ resolvedEnd pr total_pages) (h4 : resolvedEnd pr total_pages ≤ total_pages) :
    resolvePageRef PageRef.End total_pages = total_pages
    ∧ (pr.end_ = none → pr.expand total_pages = Except.ok [resolvedStart pr total_pages])
    ∧ pr.expand total_pages =
        Except.ok (if resolvedStart pr total_pages ≤ resolvedEnd pr total_pages
          then List.range' (resolvedStart pr total_pages)
                 (resolvedEnd pr total_pages - resolvedStart pr total_pages + 1)
          else (List.range' (resolvedEnd pr total_pages)
                 (resolvedStart pr total_pages - resolvedEnd pr total_pages + 1)).reverse)
    ∧ ∀ l, pr.expand total_pages = Except.ok l →
        l.length =
          ((resolvedStart pr total_pages : Int) - (resolvedEnd pr total_pages : Int)).natAbs + 1 := by
  have hexp : pr.expand total_pages =
      Except.ok (if resolvedStart pr total_pages ≤ resolvedEnd pr total_pages
        then List.range' (resolvedStart pr total_pages)
               (resolvedEnd pr total_pages - resolvedStart pr total_pages + 1)
        else (List.range' (resolvedEnd pr total_pages)
               (resolvedStart pr total_pages - resolvedEnd pr total_pages + 1)).reverse) := by
    unfold PageRange.expand
    rw [if_neg (by omega), if_neg (by omega), if_neg (by omega)]
  refine ⟨rfl, ?_, hexp, ?_⟩
  · intro hend
    have hba : resolvedEnd pr total_pages = resolvedStart pr total_pages := by
      unfold resolvedEnd
      rw [hend]
    rw [hexp, hba, if_pos le_rfl, Nat.sub_self]
    simp [List.range']
  · intro l hl
    rw [hexp] at hl
    have hl2 := Except.ok.inj hl
    subst hl2
    split
    · rw [List.length_range']
      omega
    · rw [List.length_reverse, List.length_range']
      omega

theorem expand_yields_inclusive_runs_witness :
    (1 ≤ resolvedStart { start := PageRef.Number 9, end_ := some (PageRef.Number 6), rotation := Rotation.None } 10)
    ∧ ({ start := PageRef.Number 9, end_ := some (PageRef.Number 6), rotation := Rotation.None } : PageRange).expand 10
        = Except.ok [9, 8, 7, 6] := by
  refine ⟨by decide, ?_⟩
  have h := (expand_yields_inclusive_runs
    { start := PageRef.Number 9, end_ := some (PageRef.Number 6), rotation := Rotation.None } 10
    (by decide) (by decide) (by decide) (by decide)).2.2.1
  simpa using h

/-- C3: the rotation-suffix stripping of `parse` removes a trailing
`R/r/L/l/D/d` exactly when the character right before it is a decimal
digit; `parse "1-5R"` carries rotation `Right`, while `parse "end"` is the
bare `End` start with no rotation (its trailing `d` is not a tag). -/
theorem rotation_tag_requires_digit :
    (∀ (t : List Char) (d c : Char), d.isDigit = true → rotOfChar c ≠ Rotation.None →
        stripRotation (t ++ [d, c]) = (t ++ [d], rotOfChar c))
    ∧ (∀ (t : List Char) (d c : Char), d.isDigit = false →
        stripRotation (t ++ [d, c]) = (t ++ [d, c], Rotation.None))
    ∧ (∀ (t : List Char) (d c : Char), rotOfChar c = Rotation.None →
        stripRotation (t ++ [d, c]) = (t ++ [d, c], Rotation.None))
    ∧ (∀ s : List Char, s.length ≤ 1 → stripRotation s = (s, Rotation.None))
    ∧ PageRange.parse ("1-5R") =
        Except.ok { start := PageRef.Number 1, end_ := some (PageRef.Number 5), rotation := Rotation.Right }
    ∧ PageRange.parse ("end") =
        Except.ok { start := PageRef.End, end_ := none, rotation := Rotation.None } := by
  refine ⟨?_, ?_, ?_, ?_, by decide, by decide⟩
  · intro t d c hd hc
    rw [stripRotation_eq, if_pos hd]
    cases hr : rotOfChar c
    · exact absurd hr hc
    · rfl
    · rfl
    · rfl
  · intro t d c hd
    rw [stripRotation_eq, if_neg (by simp [hd])]
  · intro t d c hc
    rw [stripRotation_eq, hc]
    split <;> rfl
  · intro s hs
    match s, hs with
    | [], _ => rfl
    | [x], _ => rfl

theorem rotation_tag_requires_digit_witness :
    (('5' : Char).isDigit = true)
    ∧ stripRotation (['1', '-'] ++ ['5', 'R']) = (['1', '-'] ++ ['5'], rotOfChar 'R') := by
  exact ⟨by decide, rotation_tag_requires_digit.1 ['1', '-'] '5' 'R' (by decide) (by decide)⟩

/-- C5: `parse` accepts the segment `"0"` — and more generally any digit
segment or digit-dash-digit segment, so in particular every segment with a
`0` endpoint — without error, while `expand` fails with a range error (and
so returns no page list) whenever a resolved endpoint is `0` or exceeds
`total_pages`. -/
theorem zero_parses_but_fails_expansion :
    PageRange.parse ("0") =
      Except.ok { start := PageRef.Number 0, end_ := none, rotation := Rotation.None }
    ∧ (∀ d : List Char, d ≠ [] → d.all Char.isDigit = true → digitsVal d < 4294967296 →
        PageRange.parse (String.mk d) =
          Except.ok { start := PageRef.Number (digitsVal d), end_ := none,
                      rotation := Rotation.None })
    ∧ (∀ d1 d2 : List Char, d1 ≠ [] → d2 ≠ [] →
        d1.all Char.isDigit = true → d2.all Char.isDigit = true →
        digitsVal d1 < 4294967296 → digitsVal d2 < 4294967296 →
        PageRange.parse (String.mk (d1 ++ '-' :: d2)) =
          Except.ok { start := PageRef.Number (digitsVal d1),
                      end_ := some (PageRef.Number (digitsVal d2)),
                      rotation := Rotation.None })
    ∧ (∀ (pr : PageRange) (total_pages : Nat),
        resolvedStart pr total_pages = 0 ∨ resolvedEnd pr total_pages = 0 ∨
          total_pages < resolvedStart pr total_pages ∨
          total_pages < resolvedEnd pr total_pages →
        ∃ e, pr.expand total_pages = Except.error e) := by
  refine ⟨by decide, parse_digits, parse_digit_pair, ?_⟩
  intro pr total_pages hbad
  by_cases hz : resolvedStart pr total_pages = 0 ∨ resolvedEnd pr total_pages = 0
  · exact ⟨_, by unfold PageRange.expand; rw [if_pos hz]⟩
  · by_cases hs : total_pages < resolvedStart pr total_pages
    · exact ⟨_, by unfold PageRange.expand; rw [if_neg hz, if_pos hs]⟩
    · have he : total_pages < resolvedEnd pr total_pages := by
        rcases hbad with h | h | h | h
        · exact absurd (Or.inl h) hz
        · exact absurd (Or.inr h) hz
        · exact absurd h hs
        · exact h
      exact ⟨_, by unfold PageRange.expand; rw [if_neg hz, if_neg hs, if_pos he]⟩

theorem zero_parses_but_fails_expansion_witness :
    (['0', '-', '5'] = ['0'] ++ '-' :: ['5'])
    ∧ PageRange.parse (String.mk (['0'] ++ '-' :: ['5'])) =
        Except.ok { start := PageRef.Number 0, end_ := some (PageRef.Number 5),
                    rotation := Rotation.None }
    ∧ ∃ e, PageRange.expand
        { start := PageRef.Number 0, end_ := some (PageRef.Number 5),
          rotation := Rotation.None } 10 = Except.error e := by
  refine ⟨by decide, ?_, ?_⟩
  · have h := zero_parses_but_fails_expansion.2.2.1 ['0'] ['5']
      (by decide) (by decide) (by decide) (by decide) (by decide) (by decide)
    simpa using h
  · exact zero_parses_but_fails_expansion.2.2.2
      { start := PageRef.Number 0, end_ := some (PageRef.Number 5), rotation := Rotation.None }
      10 (Or.inl (by decide))

/-- C6: `expand_page_ranges` concatenates the per-segment expansions in
left-to-right order with no deduplication or sorting (so `"1-3,7,9-10"`
over 10 pages yields `[1,2,3,7,9,10]`), and any segment failing to parse
or to expand makes the whole call return that single error with no
partial page list. -/
theorem expand_ranges_concatenate_fail_fast :
    expand_page_ranges ("1-3,7,9-10") 10 = Except.ok [1, 2, 3, 7, 9, 10]
    ∧ (∀ (s : String) (total_pages : Nat) (rs : List PageRange),
        parse_page_ranges s = Except.ok rs →
        expand_page_ranges s total_pages =
          match expandEach rs total_pages with
          | Except.ok ls => Except.ok ls.flatten
          | Except.error e => Except.error e)
    ∧ (∀ (s : String) (total_pages : Nat) (e : String),
        parse_page_ranges s = Except.error e →
        expand_page_ranges s total_pages = Except.error e)
    ∧ (∀ (s : String) (total_pages : Nat) (rs : List PageRange) (r : PageRange) (e : String),
        parse_page_ranges s = Except.ok rs → r ∈ rs →
        r.expand total_pages = Except.error e →
        ∃ e2, expand_page_ranges s total_pages = Except.error e2) := by
  have key : ∀ (s : String) (total_pages : Nat) (rs : List PageRange),
      parse_page_ranges s = Except.ok rs →
      expand_page_ranges s total_pages =
        match expandEach rs total_pages with
        | Except.ok ls => Except.ok ls.flatten
        | Except.error e => Except.error e := by
    intro s total_pages rs hparse
    unfold expand_page_ranges
    rw [hparse]
    show expandLoop rs total_pages [] = _
    rw [expandLoop_eq_expandEach]
    cases expandEach rs total_pages <;> simp
  refine ⟨by decide, key, ?_, ?_⟩
  · intro s total_pages e hparse
    unfold expand_page_ranges
    rw [hparse]
  · intro s total_pages rs r e hparse hmem herr
    obtain ⟨e2, h2⟩ := expandEach_error_of_mem rs total_pages r e hmem herr
    refine ⟨e2, ?_⟩
    rw [key s total_pages rs hparse, h2]

theorem expand_ranges_concatenate_fail_fast_witness :
    parse_page_ranges ("1,20") =
      Except.ok [{ start := PageRef.Number 1, end_ := none, rotation := Rotation.None },
                 { start := PageRef.Number 20, end_ := none, rotation := Rotation.None }]
    ∧ ∃ e2, expand_page_ranges ("1,20") 10 = Except.error e2 := by
  refine ⟨by decide, ?_⟩
  exact expand_ranges_concatenate_fail_fast.2.2.2 ("1,20") 10
    [{ start := PageRef.Number 1, end_ := none, rotation := Rotation.None },
     { start := PageRef.Number 20, end_ := none, rotation := Rotation.None }]
    { start := PageRef.Number 20, end_ := none, rotation := Rotation.None }
    ("Start page 20 exceeds total pages 10")
    (by decide) (by decide) (by decide)

/-- C2 counterexample: the claimed rendered value
`start_value + (p - start_page)` (unbounded) is false of the program.
The decoder reaches `start_value = 4294967295` from an `St` entry of
`-1` via the `as u32` cast; at zero-indexed page 1 the `u32` addition
wraps and the program renders `"0"`, not `"4294967296"`.  The input is
inside the claim's scope: the single-range list is sorted and page 1
exists in a 2-page document. -/
theorem page_label_value_wraps_counterexample :
    rangeFromDict 0 [(bs ("S"), Object.Name (bs ("D"))), (bs ("St"), Object.Integer (-1))]
      = { start_page := 0, style := LabelStyle.Decimal, labelPrefix := "",
          start_value := 4294967295 }
    ∧ ([{ start_page := 0, style := LabelStyle.Decimal, labelPrefix := "",
          start_value := 4294967295 }]
        : List PageLabelRange).Pairwise (fun a b => a.start_page ≤ b.start_page)
    ∧ (1 : Nat) < 2
    ∧ specApplicableRange
        [{ start_page := 0, style := LabelStyle.Decimal, labelPrefix := "",
           start_value := 4294967295 }] 1
      = { start_page := 0, style := LabelStyle.Decimal, labelPrefix := "",
          start_value := 4294967295 }
    ∧ compute_label
        [{ start_page := 0, style := LabelStyle.Decimal, labelPrefix := "",
           start_value := 4294967295 }] 1 = "0"
    ∧ compute_label
        [{ start_page := 0, style := LabelStyle.Decimal, labelPrefix := "",
           start_value := 4294967295 }] 1 ≠
        (specApplicableRange
            [{ start_page := 0, style := LabelStyle.Decimal, labelPrefix := "",
               start_value := 4294967295 }] 1).labelPrefix ++
          renderStyleNumber
            (specApplicableRange
              [{ start_page := 0, style := LabelStyle.Decimal, labelPrefix := "",
                 start_value := 4294967295 }] 1).style
            ((specApplicableRange
                [{ start_page := 0, style := LabelStyle.Decimal, labelPrefix := "",
                   start_value := 4294967295 }] 1).start_value +
              (1 - (specApplicableRange
                  [{ start_page := 0, style := LabelStyle.Decimal, labelPrefix := "",
                     start_value := 4294967295 }] 1).start_page)) := by
  decide

/-- C2 (amended): the range applicable to zero-indexed page `p` is the
last range in list (sorted) order whose `start_page ≤ p`, defaulting to
the decimal identity range; the rendered numeric value is the `u32`
wrapping sum `(start_value + (p - start_page)) mod 2^32` of that range
(not the unbounded sum — the source adds in `u32`); and the resolver's
page loop emits exactly one label per physical page `1..=total_pages`
in ascending physical-page order. -/
theorem page_label_resolution (rs : List PageLabelRange) (total_pages p : Nat)
    (hsorted : rs.Pairwise (fun a b => a.start_page ≤ b.start_page))
    (hp : p < total_pages) :
    compute_label rs p =
      (specApplicableRange rs p).labelPrefix ++
        renderStyleNumber (specApplicableRange rs p).style
          (((specApplicableRange rs p).start_value +
            (p - (specApplicableRange rs p).start_page)) % 4294967296)
    ∧ (rs.filter (fun r => decide (r.start_page ≤ p)) = [] →
        compute_label rs p = toString ((p + 1) % 4294967296))
    ∧ (labelsLoop rs total_pages).length = total_pages
    ∧ (labelsLoop rs total_pages).map (fun pl => pl.physical_page) = List.range' 1 total_pages
    ∧ (labelsLoop rs total_pages)[p]? =
        some { physical_page := p + 1, logical_label := compute_label rs p } := by
  have hkey : compute_label rs p =
      (specApplicableRange rs p).labelPrefix ++
        renderStyleNumber (specApplicableRange rs p).style
          (((specApplicableRange rs p).start_value +
            (p - (specApplicableRange rs p).start_page)) % 4294967296) := by
    simp only [compute_label, specApplicableRange,
      find?_reverse_eq_getLast?_filter (fun r => decide (r.start_page ≤ p)) rs]
  refine ⟨hkey, ?_, ?_, ?_, ?_⟩
  · intro hf
    rw [hkey]
    simp only [specApplicableRange, hf, List.getLast?_nil, Option.getD_none]
    show (defaultLabelRange).labelPrefix ++
      renderStyleNumber LabelStyle.Decimal ((1 + (p - 0)) % 4294967296) = _
    rw [show (1 + (p - 0)) = p + 1 by omega]
    exact String.empty_append _
  · simp [labelsLoop, List.length_range']
  · unfold labelsLoop
    rw [List.map_map]
    have hcomp : ((fun pl : PageLabel => pl.physical_page) ∘ fun physical_page =>
        ({ physical_page := physical_page,
           logical_label := compute_label rs (physical_page - 1) } : PageLabel))
        = fun physical_page => physical_page := rfl
    rw [hcomp]
    simp
  · unfold labelsLoop
    rw [List.getElem?_map, List.getElem?_range' 1 1 hp, Option.map_some']
    rw [show 1 + 1 * p = p + 1 by omega]
    rw [Nat.add_sub_cancel]

theorem page_label_resolution_witness :
    ([{ start_page := 0, style := LabelStyle.UpperRoman, labelPrefix := "", start_value := 1 },
      { start_page := 3, style := LabelStyle.Decimal, labelPrefix := "P-", start_value := 1 }]
        : List PageLabelRange).Pairwise (fun a b => a.start_page ≤ b.start_page)
    ∧ compute_label
        [{ start_page := 0, style := LabelStyle.UpperRoman, labelPrefix := "", start_value := 1 },
         { start_page := 3, style := LabelStyle.Decimal, labelPrefix := "P-", start_value := 1 }] 4
        = "P-2"
    ∧ (labelsLoop
        [{ start_page := 0, style := LabelStyle.UpperRoman, labelPrefix := "", start_value := 1 },
         { start_page := 3, style := LabelStyle.Decimal, labelPrefix := "P-", start_value := 1 }] 5)[4]?
        = some { physical_page := 5, logical_label := "P-2" } := by
  have h := page_label_resolution
    [{ start_page := 0, style := LabelStyle.UpperRoman, labelPrefix := "", start_value := 1 },
     { start_page := 3, style := LabelStyle.Decimal, labelPrefix := "P-", start_value := 1 }]
    5 4 (by decide) (by decide)
  refine ⟨by decide, ?_, ?_⟩
  · rw [h.1]
    decide
  · rw [h.2.2.2.2]
    decide

/-- C7: `to_roman` greedily consumes the numeral table
M, CM, D, CD, C, XC, L, XL, X, IX, V, IV, I — largest value first,
repeating each numeral while its value still fits — renders 0 as the
literal digit `"0"`, matches the documented sample values, and the
lower-roman style is the uppercase rendering lowercased. -/
theorem roman_greedy_table :
    (∀ n : Nat, to_roman n = if n = 0 then ("0") else romanSpecFold romanTable n)
    ∧ to_roman 0 = "0" ∧ to_roman 1 = "I" ∧ to_roman 4 = "IV" ∧ to_roman 9 = "IX"
    ∧ to_roman 42 = "XLII" ∧ to_roman 1999 = "MCMXCIX"
    ∧ (∀ v : Nat, renderStyleNumber LabelStyle.LowerRoman v =
        (renderStyleNumber LabelStyle.UpperRoman v).toLower) := by
  refine ⟨?_, by decide, by decide, by decide, by decide, by decide, by decide, fun v => rfl⟩
  intro n
  unfold to_roman
  split
  · rfl
  · rw [romanFold_eq romanTable n ("") (by decide), String.empty_append]

/-- C8: `to_alpha` is bijective base-26 over `A..Z` with `A = 1` (so 26 is
`"Z"`, 27 is `"AA"`, 28 is `"AB"`, not naive positional base-26), renders
0 as the empty string, and the lower-alpha style is the uppercase
rendering lowercased. -/
theorem alpha_bijective_base26 :
    (∀ n : Nat, to_alpha n = String.mk (alphaSpecData n))
    ∧ to_alpha 0 = "" ∧ to_alpha 1 = "A" ∧ to_alpha 26 = "Z" ∧ to_alpha 27 = "AA"
    ∧ to_alpha 28 = "AB"
    ∧ (∀ v : Nat, renderStyleNumber LabelStyle.LowerAlpha v =
        (renderStyleNumber LabelStyle.UpperAlpha v).toLower) := by
  refine ⟨?_, by decide, by decide, by decide, by decide, by decide, fun v => rfl⟩
  intro n
  unfold to_alpha
  split
  · rename_i h0
    subst h0
    rw [alphaSpecData_eq]
    rfl
  · rename_i h0
    rw [alphaLoop_eq n (n - 1) [] (by omega), show n - 1 + 1 = n by omega, List.append_nil]

/-- C4: named-destination resolution searches the modern
`Catalog.Names.Dests` name tree first and its hit wins outright; the
legacy `Catalog.Dests` dictionary is consulted only when the name-tree
search produced no page. -/
theorem named_destination_prefers_name_tree (f : Nat) (doc : Document) (name : List Nat)
    (page_map : PageMap) (catalog : Dict) (names_ref : ObjectId) (names_dict : Dict)
    (dests_ref : ObjectId)
    (hcat : doc.catalogE = Except.ok catalog)
    (h1 : dictGet catalog (bs ("Names")) = Except.ok (Object.Reference names_ref))
    (h2 : docGetDictionary doc names_ref = Except.ok names_dict)
    (h3 : dictGet names_dict (bs ("Dests")) = Except.ok (Object.Reference dests_ref)) :
    (∀ p : Nat, search_name_tree f doc dests_ref name page_map = some p →
        resolve_named_destination (f + 1) doc name page_map = some p)
    ∧ (∀ (legacy_ref : ObjectId) (legacy_dict : Dict) (dest : Object),
        search_name_tree f doc dests_ref name page_map = none →
        dictGet catalog (bs ("Dests")) = Except.ok (Object.Reference legacy_ref) →
        docGetDictionary doc legacy_ref = Except.ok legacy_dict →
        dictGet legacy_dict name = Except.ok dest →
        resolve_named_destination (f + 1) doc name page_map =
          resolve_destination f doc dest page_map) := by
  constructor
  · intro p hsearch
    simp only [resolve_named_destination, hcat, h1, h2, h3, hsearch]
  · intro legacy_ref legacy_dict dest hnone h4 h5 h6
    simp only [resolve_named_destination, hcat, h1, h2, h3, hnone, h4, h5, h6]

/-- Document used for the concrete named-destination checks: the name tree
maps the key to page 3 while the legacy `Dests` maps it to page 7. -/
def dualDestDoc : Document :=
  { objects :=
      [((1, 0), Object.Dictionary [(bs ("Dests"), Object.Reference (2, 0))]),
       ((2, 0), Object.Dictionary [(bs ("Names"),
          Object.Array [Object.String (bs ("Section1")) StringFormat.Literal,
                        Object.Array [Object.Reference (10, 0)]])]),
       ((4, 0), Object.Dictionary [(bs ("Section1"), Object.Array [Object.Reference (20, 0)])])],
    catalogE := Except.ok
      [(bs ("Names"), Object.Reference (1, 0)), (bs ("Dests"), Object.Reference (4, 0))],
    pages := [(3, (10, 0)), (7, (20, 0))] }

def dualDestPageMap : PageMap := [((10, 0), 3), ((20, 0), 7)]

theorem named_destination_prefers_name_tree_witness :
    search_name_tree 5 dualDestDoc (2, 0) (bs ("Section1")) dualDestPageMap = some 3
    ∧ resolve_named_destination 6 dualDestDoc (bs ("Section1")) dualDestPageMap = some 3 := by
  refine ⟨rfl, ?_⟩
  exact (named_destination_prefers_name_tree 5 dualDestDoc (bs ("Section1")) dualDestPageMap
    [(bs ("Names"), Object.Reference (1, 0)), (bs ("Dests"), Object.Reference (4, 0))]
    (1, 0) [(bs ("Dests"), Object.Reference (2, 0))] (2, 0)
    rfl rfl rfl rfl).1 3 rfl

/-- C9: a document whose catalog has no `Outlines` entry (or a
non-reference one), whose `Outlines` reference does not dereference to a
dictionary, or whose outline root has no `First` child reference, yields
an empty TOC, not an error. -/
theorem toc_absent_yields_empty (fuel : Nat) (doc : Document) (catalog : Dict)
    (hcat : doc.catalogE = Except.ok catalog) :
    (∀ res : Except String Object, dictGet catalog (bs ("Outlines")) = res →
        (∀ r : ObjectId, res ≠ Except.ok (Object.Reference r)) →
        extract_toc_from_doc fuel doc = Except.ok [])
    ∧ (∀ (r : ObjectId) (e : String),
        dictGet catalog (bs ("Outlines")) = Except.ok (Object.Reference r) →
        docGetDictionary doc r = Except.error e →
        extract_toc_from_doc fuel doc = Except.ok [])
    ∧ (∀ (r : ObjectId) (outlines : Dict),
        dictGet catalog (bs ("Outlines")) = Except.ok (Object.Reference r) →
        docGetDictionary doc r = Except.ok outlines →
        (∀ fr : ObjectId, dictGet outlines (bs ("First")) ≠ Except.ok (Object.Reference fr)) →
        extract_toc_from_doc fuel doc = Except.ok []) := by
  refine ⟨?_, ?_, ?_⟩
  · intro res hres hne
    cases res with
    | error e => simp only [extract_toc_from_doc, hcat, hres]
    | ok obj =>
      cases obj with
      | Reference r => exact absurd rfl (hne r)
      | Null => simp only [extract_toc_from_doc, hcat, hres]
      | Boolean b => simp only [extract_toc_from_doc, hcat, hres]
      | Integer i => simp only [extract_toc_from_doc, hcat, hres]
      | Real => simp only [extract_toc_from_doc, hcat, hres]
      | Name bytes => simp only [extract_toc_from_doc, hcat, hres]
      | String bytes fmt => simp only [extract_toc_from_doc, hcat, hres]
      | Array elems => simp only [extract_toc_from_doc, hcat, hres]
      | Dictionary entries => simp only [extract_toc_from_doc, hcat, hres]
      | Stream => simp only [extract_toc_from_doc, hcat, hres]
  · intro r e hout hderef
    simp only [extract_toc_from_doc, hcat, hout, hderef]
  · intro r outlines hout hderef hfirst
    cases hf : dictGet outlines (bs ("First")) with
    | error e => simp only [extract_toc_from_doc, hcat, hout, hderef, hf]
    | ok obj =>
      cases obj with
      | Reference fr => exact absurd hf (hfirst fr)
      | Null => simp only [extract_toc_from_doc, hcat, hout, hderef, hf]
      | Boolean b => simp only [extract_toc_from_doc, hcat, hout, hderef, hf]
      | Integer i => simp only [extract_toc_from_doc, hcat, hout, hderef, hf]
      | Real => simp only [extract_toc_from_doc, hcat, hout, hderef, hf]
      | Name bytes => simp only [extract_toc_from_doc, hcat, hout, hderef, hf]
      | String bytes fmt => simp only [extract_toc_from_doc, hcat, hout, hderef, hf]
      | Array elems => simp only [extract_toc_from_doc, hcat, hout, hderef, hf]
      | Dictionary entries => simp only [extract_toc_from_doc, hcat, hout, hderef, hf]
      | Stream => simp only [extract_toc_from_doc, hcat, hout, hderef, hf]

theorem toc_absent_yields_empty_witness :
    ({ objects := [], catalogE := Except.ok [], pages := [] } : Document).catalogE
      = Except.ok []
    ∧ extract_toc_from_doc 9 { objects := [], catalogE := Except.ok [], pages := [] }
      = Except.ok [] := by
  refine ⟨rfl, ?_⟩
  exact (toc_absent_yields_empty 9 { objects := [], catalogE := Except.ok [], pages := [] }
    [] rfl).1 (dictGet [] (bs ("Outlines"))) rfl (fun r h => by cases h)

/-- C10: a `PageLabels` catalog entry that is an inline dictionary, or a
reference that fails to dereference to a dictionary, makes label
extraction skip number-tree decoding entirely and return the identity
decimal default labels, exactly as when `PageLabels` is absent. -/
theorem page_labels_inline_or_broken_defaults (fuel : Nat) (doc : Document) (catalog : Dict)
    (hcat : doc.catalogE = Except.ok catalog) :
    (∀ d : Dict, dictGet catalog (bs ("PageLabels")) = Except.ok (Object.Dictionary d) →
        extract_page_labels_from_doc fuel doc =
          Except.ok (generate_default_labels doc.pages.length))
    ∧ (∀ (r : ObjectId) (e : String),
        dictGet catalog (bs ("PageLabels")) = Except.ok (Object.Reference r) →
        docGetDictionary doc r = Except.error e →
        extract_page_labels_from_doc fuel doc =
          Except.ok (generate_default_labels doc.pages.length))
    ∧ (∀ e : String, dictGet catalog (bs ("PageLabels")) = Except.error e →
        extract_page_labels_from_doc fuel doc =
          Except.ok (generate_default_labels doc.pages.length))
    ∧ generate_default_labels doc.pages.length =
        (List.range' 1 doc.pages.length).map
          (fun p => { physical_page := p, logical_label := toString p }) := by
  refine ⟨?_, ?_, ?_, rfl⟩
  · intro d hpl
    simp only [extract_page_labels_from_doc, hcat, hpl]
  · intro r e hpl hderef
    simp only [extract_page_labels_from_doc, hcat, hpl, hderef]
  · intro e hpl
    simp only [extract_page_labels_from_doc, hcat, hpl]

theorem page_labels_inline_or_broken_defaults_witness :
    dictGet [(bs ("PageLabels"), Object.Dictionary [])] (bs ("PageLabels"))
      = Except.ok (Object.Dictionary [])
    ∧ extract_page_labels_from_doc 9
        { objects := [], catalogE := Except.ok [(bs ("PageLabels"), Object.Dictionary [])],
          pages := [(1, (10, 0)), (2, (11, 0))] }
      = Except.ok [{ physical_page := 1, logical_label := "1" },
                   { physical_page := 2, logical_label := "2" }] := by
  refine ⟨rfl, ?_⟩
  have h := (page_labels_inline_or_broken_defaults 9
    { objects := [], catalogE := Except.ok [(bs ("PageLabels"), Object.Dictionary [])],
      pages := [(1, (10, 0)), (2, (11, 0))] }
    [(bs ("PageLabels"), Object.Dictionary [])] rfl).1 [] rfl
  rw [h]
  rfl

end InPdf
